import Mathlib

/-!
Verification of the jwplayer-react event-multiplexer and lifecycle logic.

Shallow embedding of `src/util.ts` and `src/jwplayer.tsx`:
JavaScript objects become association lists in insertion order,
JavaScript values become the inductive `JsValue` (functions and objects
carry a reference identifier so that strict equality `===` can be
modelled), and the stateful component becomes explicit state passing
with a trace of the calls made on the player handle.
-/

namespace JwplayerReact

/-- A JavaScript value as it appears in the property bag.  Functions and
objects are identified by a reference id: JavaScript `===` on them is
reference identity, which `jsStrictEq` models by comparing the ids. -/
inductive JsValue where
  | vundef : JsValue
  | vnull : JsValue
  | vbool : Bool → JsValue
  | vnum : Int → JsValue
  | vstr : String → JsValue
  | vfun : Nat → JsValue
  | vobj : Nat → List (String × JsValue) → JsValue

/-- A JavaScript object: fields in insertion order, keys unique. -/
abbrev JsObj := List (String × JsValue)

/-- Property access `o[k]`: the value stored at `k`, `undefined` if absent. -/
def jsGet (o : JsObj) (k : String) : JsValue :=
  match o with
  | [] => JsValue.vundef
  | (k', v) :: rest => if k' = k then v else jsGet rest k

/-- `Object.keys(o)`: the keys in insertion order. -/
def jsKeys (o : JsObj) : List String := o.map Prod.fst

/-- JavaScript strict equality `===` restricted to the values the
component manipulates: structural on primitives, reference identity
(id comparison) on functions and objects. -/
def jsStrictEq : JsValue → JsValue → Bool
  | JsValue.vundef, JsValue.vundef => true
  | JsValue.vnull, JsValue.vnull => true
  | JsValue.vbool a, JsValue.vbool b => a == b
  | JsValue.vnum a, JsValue.vnum b => a == b
  | JsValue.vstr a, JsValue.vstr b => a == b
  | JsValue.vfun a, JsValue.vfun b => a == b
  | JsValue.vobj a _, JsValue.vobj b _ => a == b
  | _, _ => false

/-- JavaScript truthiness of a value. -/
def truthy : JsValue → Bool
  | JsValue.vundef => false
  | JsValue.vnull => false
  | JsValue.vbool b => b
  | JsValue.vnum n => n != 0
  | JsValue.vstr s => s ≠ ""
  | JsValue.vfun _ => true
  | JsValue.vobj _ _ => true

/-- `typeof v === 'function'`. -/
def isCallable : JsValue → Bool
  | JsValue.vfun _ => true
  | _ => false

/-- The two handler-name patterns passed to `getHandlerName`
(`ON_REGEX` and `ONCE_REGEX` from `src/const.ts`). -/
inductive HandlerPattern where
  | onPat : HandlerPattern
  | oncePat : HandlerPattern

/-- Strip the prefix `pre` from the character list `s`; `none` when `s`
does not start with `pre`. -/
def stripChars : List Char → List Char → Option (List Char)
  | [], rest => some rest
  | _ :: _, [] => none
  | c :: pre, d :: s => if c = d then stripChars pre s else none

/-- Modelled from the spec: `src/const.ts` is not under src/, so the
two patterns `ON_REGEX` and `ONCE_REGEX` are taken from the spec's
words — a fire-every handler "name matches prefix `on` + capitalized
event name", a fire-once handler "name matches prefix `once` +
capitalized event name".  `matchCapture` returns the regex's first
capture group (the substring after the prefix) when the property name
matches, `none` otherwise. -/
def matchCapture (prop : String) : HandlerPattern → Option String
  | HandlerPattern.onPat =>
    match stripChars ['o', 'n'] prop.data with
    | some (c :: rest) =>
      if c.isUpper then some (String.mk (c :: rest)) else none
    | _ => none
  | HandlerPattern.oncePat =>
    match stripChars ['o', 'n', 'c', 'e'] prop.data with
    | some (c :: rest) =>
      if c.isUpper then some (String.mk (c :: rest)) else none
    | _ => none

/-- Modelled from the spec: the reserved catch-all token `ALL` from the
missing `src/const.ts`; the spec calls it "the reserved token `all`". -/
def ALL : String := "all"

/-- Lower-case the first character of a string, keep the rest:
`s.charAt(0).toLowerCase() + s.slice(1)`. -/
def lowerFirst (s : String) : String :=
  match s.data with
  | [] => ""
  | c :: cs => String.mk (c.toLower :: cs)

/-- `getHandlerName` from `src/util.ts`: match the property name against
the pattern, defaulting to `['','']` when there is no match, and return
the first capture group with its first letter lower-cased. -/
def getHandlerName (prop : String) (pat : HandlerPattern) : String :=
  let m1 := (matchCapture prop pat).getD ""
  lowerFirst m1

/-- `prop.match(ON_REGEX) !== null`, the filter used by `didOnEventsChange`. -/
def matchesOnPattern (prop : String) : Bool :=
  (matchCapture prop HandlerPattern.onPat).isSome

/-- Lexicographic comparison of character lists by code point, the
order JavaScript's default `Array.prototype.sort` uses on strings. -/
def charListLe : List Char → List Char → Bool
  | [], _ => true
  | _ :: _, [] => false
  | c :: cs, d :: ds =>
    if c.toNat < d.toNat then true
    else if d.toNat < c.toNat then false
    else charListLe cs ds

/-- Lexicographic comparison of strings. -/
def strLe (s t : String) : Bool := charListLe s.data t.data

/-- Insert a string into a sorted list of strings. -/
def insertSorted (s : String) : List String → List String
  | [] => [s]
  | t :: ts => if strLe s t then s :: t :: ts else t :: insertSorted s ts

/-- JavaScript `Array.prototype.sort()` on an array of strings:
lexicographic order. -/
def sortStrings : List String → List String
  | [] => []
  | s :: ss => insertSorted s (sortStrings ss)

/-- `Array.prototype.some((x, i) => f i x)` starting at index `i`. -/
def anyIdx (f : Nat → String → Bool) : Nat → List String → Bool
  | _, [] => false
  | i, s :: ss => f i s || anyIdx f (i + 1) ss

/-- The sorted list of fire-every property names of a bag:
`Object.keys(o).filter(onEventFilter).sort()`. -/
def sortedOnEvents (o : JsObj) : List String :=
  sortStrings ((jsKeys o).filter matchesOnPattern)

/-- `didOnEventsChange` from `src/jwplayer.tsx` (lines 342-361): filter
both bags' keys by the fire-every pattern, sort, then report a change
when the lengths differ, or when at some position of the sorted next
list the current name differs or the two bags' values under the next
name are not strictly equal. -/
def didOnEventsChange (currProps nextProps : JsObj) : Bool :=
  let currEvents := sortedOnEvents currProps
  let nextEvents := sortedOnEvents nextProps
  if nextEvents.length ≠ currEvents.length then
    true
  else
    anyIdx
      (fun index event =>
        (currEvents.getD index "" ≠ event) ||
        !(jsStrictEq (jsGet nextProps event) (jsGet currProps event)))
      0 nextEvents

/-- One invocation of a user-supplied handler performed by the dispatch
function: `payloadOnly fid p` is `handler(optReturn)` on the fire-every
branch, `withName fid n p` is `handler(name, optReturn)` on the
catch-all branch; `fid` is the reference id of the invoked function. -/
inductive HandlerCall where
  | payloadOnly : Nat → JsValue → HandlerCall
  | withName : Nat → String → JsValue → HandlerCall

/-- The body of the `forEach` inside `createOnEventHandler` for one
property name: first the fire-every branch (`onHandlerName` truthy and
equal to the incoming name, value callable → call with the payload),
then the catch-all branch (`onHandlerName === ALL`, value callable →
call with name and payload). -/
def callsForProp (props : JsObj) (prop : String) (name : String)
    (optReturn : JsValue) : List HandlerCall :=
  let onHandlerName := getHandlerName prop HandlerPattern.onPat
  (if onHandlerName ≠ "" ∧ onHandlerName = name then
     match jsGet props prop with
     | JsValue.vfun fid => [HandlerCall.payloadOnly fid optReturn]
     | _ => []
   else []) ++
  (if onHandlerName = ALL then
     match jsGet props prop with
     | JsValue.vfun fid => [HandlerCall.withName fid name optReturn]
     | _ => []
   else [])

/-- `createOnEventHandler(props)` from `src/jwplayer.tsx` (lines
283-302), applied to an incoming event `(name, optReturn)`: the list of
handler invocations it performs, scanning `Object.keys(props)` in
order. -/
def createOnEventHandler (props : JsObj) (name : String)
    (optReturn : JsValue) : List HandlerCall :=
  (jsKeys props).flatMap fun prop => callsForProp props prop name optReturn

/-- Object spread `{ ...a, ...b }`: keys of `a` in order with `b`'s
values where `b` also has the key, then the keys of `b` that are not in
`a`, in order. -/
def spread2 (a b : JsObj) : JsObj :=
  (a.map fun kv =>
    (kv.1, if (jsKeys b).contains kv.1 then jsGet b kv.1 else kv.2)) ++
  b.filter fun kv => !(jsKeys a).contains kv.1

/-- Property assignment `o[k] = v`: overwrite in place when the key is
present, append otherwise. -/
def jsSet (o : JsObj) (k : String) (v : JsValue) : JsObj :=
  match o with
  | [] => [(k, v)]
  | (k', v') :: rest =>
    if k' = k then (k, v) :: rest else (k', v') :: jsSet rest k v

/-- The own enumerable properties contributed by spreading a value:
objects give their fields, strings their indexed characters, every
other value none. -/
def spreadValue : JsValue → JsObj
  | JsValue.vobj _ fields => fields
  | JsValue.vstr s =>
    (s.data.enum).map fun p => (toString p.1, JsValue.vstr (String.mk [p.2]))
  | _ => []

/-- The `config` object built by the `forEach` in `generateConfig`:
`Object.keys(props)` in order, assigning `config[key] = props[key]`
for every whitelisted key. -/
def whitelistedConfig (configProps : List String) (props : JsObj) : JsObj :=
  (jsKeys props).foldl
    (fun acc key =>
      if configProps.contains key then jsSet acc key (jsGet props key) else acc)
    []

/-- `generateConfig` from `src/util.ts` (lines 29-37): collect the
whitelisted properties by assignment in key order, then return
`{ ...props.config, ...config, isReactComponent: true }`.  The
whitelist is the `configProps` set from `src/config-props.ts`, which is
not under src/: per the spec it is "a static whitelist of player
configuration keys", taken here as the parameter `configProps`. -/
def generateConfig (configProps : List String) (props : JsObj) : JsObj :=
  spread2
    (spread2 (spreadValue (jsGet props "config"))
      (whitelistedConfig configProps props))
    [("isReactComponent", JsValue.vbool true)]

/-- The setup configuration built by `createPlayer` in
`src/jwplayer.tsx` (lines 318-322): `{ ...window.jwDefaults, ...config }`
where `config` is `generateConfig(props)`. -/
def setupConfig (jwDefaults : JsObj) (configProps : List String)
    (props : JsObj) : JsObj :=
  spread2 jwDefaults (generateConfig configProps props)

/-- A call made on the player handle or a lifecycle callback, recorded
in order.  `onCall ch fid` is `player.on(ch, handler)`, `offCall ch fid`
is `player.off(ch, handler)`, `offAllCall` is the no-argument
`player.off()`, `onceCall ev fid` is `player.once(ev, handler)`,
`removeCall` is `player.remove()`, `setupCall` is the
`jwplayer(id).setup(config)` instantiation, and the two `Cb` entries are
the mount / unmount notification callbacks with their arguments. -/
inductive PlayerCall where
  | setupCall : PlayerCall
  | onCall : String → Nat → PlayerCall
  | onceCall : String → Nat → PlayerCall
  | offCall : String → Nat → PlayerCall
  | offAllCall : PlayerCall
  | removeCall : PlayerCall
  | mountCb : Nat → String → PlayerCall
  | unmountCb : Option Nat → String → PlayerCall
deriving DecidableEq

/-- The mutable per-instance state: `playerRef.current` (the player
handle, identified by a reference id when present) and
`onHandlerRef.current` (the currently stored dispatch function,
identified by its closure's reference id). -/
structure Inst where
  player : Option Nat
  onHandler : Option Nat
deriving DecidableEq

/-- `createEventListeners` from `src/jwplayer.tsx` (lines 324-340): for
every property matching the fire-once pattern with a callable value,
call `player.once` (guarded by the player handle being non-null); then
store a freshly created dispatch closure (reference id `freshFid`) in
`onHandlerRef` and, if the player handle is non-null, attach it with
`player.on(ALL, handler)`. -/
def createEventListeners (props : JsObj) (st : Inst) (freshFid : Nat) :
    Inst × List PlayerCall :=
  let onceOps := (jsKeys props).flatMap fun prop =>
    let onceHandlerName := getHandlerName prop HandlerPattern.oncePat
    if onceHandlerName ≠ "" ∧ st.player.isSome then
      match jsGet props prop with
      | JsValue.vfun fid => [PlayerCall.onceCall onceHandlerName fid]
      | _ => []
    else []
  let attachOps :=
    match st.player with
    | some _ => [PlayerCall.onCall ALL freshFid]
    | none => []
  ({ st with onHandler := some freshFid }, onceOps ++ attachOps)

/-- `updateOnEventListener` from `src/jwplayer.tsx` (lines 363-372): if
both the stored dispatch function and the player handle are non-null,
detach the stored function from the aggregate channel; then store a
fresh dispatch closure (reference id `freshFid`) and, if the player
handle is non-null, attach it. -/
def updateOnEventListener (st : Inst) (freshFid : Nat) :
    Inst × List PlayerCall :=
  let detachOps :=
    match st.onHandler, st.player with
    | some fid, some _ => [PlayerCall.offCall ALL fid]
    | _, _ => []
  let attachOps :=
    match st.player with
    | some _ => [PlayerCall.onCall ALL freshFid]
    | none => []
  ({ st with onHandler := some freshFid }, detachOps ++ attachOps)

/-- `shouldComponentUpdate` from `src/jwplayer.tsx` (lines 374-385):
false when the player handle is null; otherwise, when the fire-every
properties changed, refresh the aggregate listener and return false;
otherwise return true.  Returns the decision, the state after the call
and the player calls made. -/
def shouldComponentUpdate (currProps nextProps : JsObj) (st : Inst)
    (freshFid : Nat) : Bool × Inst × List PlayerCall :=
  if st.player.isNone then
    (false, st, [])
  else if didOnEventsChange currProps nextProps then
    let r := updateOnEventListener st freshFid
    (false, r.1, r.2)
  else
    (true, st, [])

/-- `componentDidMount` from `src/jwplayer.tsx` (lines 387-398).  The
awaited loader outcome is the parameter `loadRes`; on rejection the
`await` rethrows and nothing below it runs.  On success the player is
created (`setupCall`, handle id `newPid`), listeners are created, and
the mount-notification callback fires when `props.didMountCallback` is
truthy. -/
def componentDidMount (loadRes : Except String Unit) (props : JsObj)
    (st : Inst) (newPid freshFid : Nat) (id : String) :
    Except String Unit × Inst × List PlayerCall :=
  match loadRes with
  | Except.error e => (Except.error e, st, [])
  | Except.ok _ =>
    let st1 : Inst := { st with player := some newPid }
    let r := createEventListeners props st1 freshFid
    let cbOps :=
      if truthy (jsGet props "didMountCallback") then
        [PlayerCall.mountCb newPid id]
      else []
    (Except.ok (), r.1, PlayerCall.setupCall :: (r.2 ++ cbOps))

/-- The `useEffect` cleanup in `src/jwplayer.tsx` (lines 442-455): fire
the unmount-notification callback (when supplied) with the player
handle as it stands; then, if the handle is non-null, `off()` all
listeners, `remove()` the player and clear the handle. -/
def unmountCleanup (hasUnmountCb : Bool) (st : Inst) (id : String) :
    Inst × List PlayerCall :=
  let cbOps :=
    if hasUnmountCb then [PlayerCall.unmountCb st.player id] else []
  match st.player with
  | some _ =>
    ({ st with player := none }, cbOps ++ [PlayerCall.offAllCall, PlayerCall.removeCall])
  | none => (st, cbOps)

/-- Outcome of `loadPlayer`: a synchronous throw, an immediate
resolution, or a resolution / rejection after one script injection. -/
inductive LoadOutcome where
  | thrown : String → LoadOutcome
  | resolved : LoadOutcome
  | rejected : String → LoadOutcome
deriving DecidableEq

/-- `loadPlayer` from `src/util.ts` (lines 22-27) together with
`createPlayerLoadPromise` (lines 11-20): if no global `window.jwplayer`
and no truthy url, throw synchronously; if the global exists, resolve
immediately; otherwise inject one script and resolve on its load event
or reject with the error event `netErr`.  Returns the outcome and the
number of scripts injected. -/
def loadPlayer (jwplayerPresent : Bool) (url : Option String)
    (net : Except String Unit) : LoadOutcome × Nat :=
  let urlTruthy := match url with
    | none => false
    | some s => s ≠ ""
  if !jwplayerPresent ∧ !urlTruthy then
    (LoadOutcome.thrown
      "jwplayer-react requires either a library prop, or a library script", 0)
  else if jwplayerPresent then
    (LoadOutcome.resolved, 0)
  else
    match net with
    | Except.ok _ => (LoadOutcome.resolved, 1)
    | Except.error e => (LoadOutcome.rejected e, 1)

/-- One event in the mounted lifetime of an instance: a call to
`updateOnEventListener` with a fresh dispatch closure, or the player
destroying itself out-of-band (the handle becomes null; no calls are
made by this component). -/
inductive MountedEvent where
  | refresh : Nat → MountedEvent
  | externalDestroy : MountedEvent

/-- Run a sequence of mounted-lifetime events from a state, collecting
the player calls made. -/
def runMounted (st : Inst) : List MountedEvent → Inst × List PlayerCall
  | [] => (st, [])
  | MountedEvent.refresh fid :: rest =>
    let r := updateOnEventListener st fid
    let r2 := runMounted r.1 rest
    (r2.1, r.2 ++ r2.2)
  | MountedEvent.externalDestroy :: rest =>
    runMounted { st with player := none } rest

/-- Number of `on(ALL, _)` calls in a trace. -/
def attachCount (tr : List PlayerCall) : Nat :=
  tr.countP fun c => match c with
    | PlayerCall.onCall ch _ => ch == ALL
    | _ => false

/-- Number of `off(ALL, _)` calls in a trace. -/
def detachCount (tr : List PlayerCall) : Nat :=
  tr.countP fun c => match c with
    | PlayerCall.offCall ch _ => ch == ALL
    | _ => false

/-- Effect of one player call on the aggregate channel's subscription
table: `on(ALL, f)` appends `f`, `off(ALL, f)` removes one occurrence
of `f`, anything else leaves it unchanged. -/
def aggStep (attached : List Nat) : PlayerCall → List Nat
  | PlayerCall.onCall ch fid => if ch = ALL then attached ++ [fid] else attached
  | PlayerCall.offCall ch fid => if ch = ALL then attached.erase fid else attached
  | _ => attached

/-- Replay a trace against the player's aggregate-channel subscription
table: the dispatch functions attached after the trace. -/
def aggAttached (tr : List PlayerCall) : List Nat := tr.foldl aggStep []

/-- The whole trace of player calls over a mounted lifetime: the calls
of `createEventListeners` right after the player is created (handle id
`p`, first dispatch closure id `h0`), followed by the calls of an
arbitrary sequence of listener refreshes and external destructions. -/
def mountedTrace (props : JsObj) (p h0 : Nat) (events : List MountedEvent) :
    List PlayerCall :=
  let r := createEventListeners props { player := some p, onHandler := none } h0
  r.2 ++ (runMounted r.1 events).2

/-- True of `payloadOnly fid _` calls, the fire-every invocations of the
function with reference id `fid`. -/
def isEveryCallOf (fid : Nat) : HandlerCall → Bool
  | HandlerCall.payloadOnly f _ => f == fid
  | _ => false

/-- True of `withName fid _ _` calls, the catch-all invocations of the
function with reference id `fid`. -/
def isAllCallOf (fid : Nat) : HandlerCall → Bool
  | HandlerCall.withName f _ _ => f == fid
  | _ => false

/-- Whether a value is the function with reference id `fid`. -/
def isFunRef (v : JsValue) (fid : Nat) : Bool :=
  match v with
  | JsValue.vfun f => f == fid
  | _ => false

/-- The payload a handler invocation passed to the user callback. -/
def HandlerCall.payload : HandlerCall → JsValue
  | HandlerCall.payloadOnly _ p => p
  | HandlerCall.withName _ _ p => p

/-- Specification-side restatement of `haveEventPropertiesChanged`,
following the spec's words: the sorted fire-every name lists differ in
length, or some position's name differs after sorting, or a name
present in both at the same sorted position has values that differ by
reference identity. -/
def specEventChange (currProps nextProps : JsObj) : Prop :=
  let c := sortedOnEvents currProps
  let n := sortedOnEvents nextProps
  c.length ≠ n.length ∨
  (∃ i, i < n.length ∧ c.getD i "" ≠ n.getD i "") ∨
  (∃ i, i < n.length ∧ c.getD i "" = n.getD i "" ∧
    jsStrictEq (jsGet nextProps (n.getD i "")) (jsGet currProps (n.getD i "")) = false)

/-! ## Helper lemmas about object lookup and spread -/

theorem jsKeys_cons (k : String) (v : JsValue) (rest : JsObj) :
    jsKeys ((k, v) :: rest) = k :: jsKeys rest := rfl

theorem contains_eq_decide (l : List String) (k : String) :
    l.contains k = decide (k ∈ l) := List.elem_eq_mem k l

theorem jsGet_append (a b : JsObj) (k : String) :
    jsGet (a ++ b) k = if k ∈ jsKeys a then jsGet a k else jsGet b k := by
  induction a with
  | nil => simp [jsGet, jsKeys]
  | cons kv rest ih =>
    obtain ⟨k', v⟩ := kv
    by_cases h : k' = k
    · subst h
      simp [jsGet, jsKeys_cons]
    · show jsGet ((k', v) :: (rest ++ b)) k = _
      rw [jsGet, if_neg h, ih, jsKeys_cons]
      by_cases hm : k ∈ jsKeys rest
      · rw [if_pos hm, if_pos (List.mem_cons_of_mem _ hm), jsGet, if_neg h]
      · rw [if_neg hm, if_neg (by simp [hm, Ne.symm h])]

theorem jsKeys_map_value (a : JsObj) (f : String × JsValue → JsValue) :
    jsKeys (a.map fun kv => (kv.1, f kv)) = jsKeys a := by
  simp [jsKeys, List.map_map, Function.comp]

theorem jsGet_spread_left (a b : JsObj) (k : String) :
    jsGet (a.map fun kv =>
      (kv.1, if (jsKeys b).contains kv.1 then jsGet b kv.1 else kv.2)) k =
    if k ∈ jsKeys a then
      (if k ∈ jsKeys b then jsGet b k else jsGet a k)
    else JsValue.vundef := by
  induction a with
  | nil => simp [jsGet, jsKeys]
  | cons kv rest ih =>
    obtain ⟨k', v⟩ := kv
    by_cases h : k' = k
    · subst h
      simp only [List.map_cons, jsGet, if_pos rfl, jsKeys_cons,
        if_pos (List.mem_cons_self k' _), contains_eq_decide]
      by_cases hb : k' ∈ jsKeys b <;> simp [hb]
    · show jsGet ((k', _) :: _) k = _
      rw [jsGet, if_neg h, ih, jsKeys_cons]
      by_cases hm : k ∈ jsKeys rest
      · rw [if_pos hm, if_pos (List.mem_cons_of_mem _ hm)]
        by_cases hb : k ∈ jsKeys b
        · rw [if_pos hb, if_pos hb]
        · rw [if_neg hb, if_neg hb, jsGet, if_neg h]
      · rw [if_neg hm, if_neg (by simp [hm, Ne.symm h])]

theorem jsGet_filter_not_in (a b : JsObj) (k : String)
    (h : k ∉ jsKeys a) :
    jsGet (b.filter fun kv => !(jsKeys a).contains kv.1) k = jsGet b k := by
  induction b with
  | nil => simp
  | cons kv rest ih =>
    obtain ⟨k', v⟩ := kv
    rw [List.filter_cons]
    by_cases hk : k' = k
    · subst hk
      have hc : ((jsKeys a).contains k') = false := by
        rw [contains_eq_decide]
        simpa using h
      rw [hc]
      show jsGet ((k', v) :: _) k' = jsGet ((k', v) :: rest) k'
      rw [jsGet, jsGet, if_pos rfl, if_pos rfl]
    · by_cases hmem : k' ∈ jsKeys a
      · have hc : ((jsKeys a).contains k') = true := by
          rw [contains_eq_decide]
          simpa using hmem
        rw [hc]
        show jsGet (List.filter _ rest) k = jsGet ((k', v) :: rest) k
        rw [ih]
        show _ = if k' = k then v else jsGet rest k
        rw [if_neg hk]
      · have hc : ((jsKeys a).contains k') = false := by
          rw [contains_eq_decide]
          simpa using hmem
        rw [hc]
        show jsGet ((k', v) :: List.filter _ rest) k = jsGet ((k', v) :: rest) k
        rw [jsGet, jsGet, if_neg hk, if_neg hk, ih]

theorem jsGet_not_contains (b : JsObj) (k : String)
    (h : k ∉ jsKeys b) : jsGet b k = JsValue.vundef := by
  induction b with
  | nil => simp [jsGet]
  | cons kv rest ih =>
    obtain ⟨k', v⟩ := kv
    simp only [jsKeys_cons, List.mem_cons, not_or] at h
    simp [jsGet, Ne.symm h.1, ih h.2]

/-- The key lookup law of object spread: keys of `b` win. -/
theorem jsGet_spread2 (a b : JsObj) (k : String) :
    jsGet (spread2 a b) k =
      if k ∈ jsKeys b then jsGet b k else jsGet a k := by
  unfold spread2
  rw [jsGet_append, jsKeys_map_value, jsGet_spread_left]
  by_cases ha : k ∈ jsKeys a
  · simp [ha]
  · rw [if_neg ha, jsGet_filter_not_in a b k ha]
    by_cases hb : k ∈ jsKeys b
    · rw [if_pos hb]
    · rw [if_neg hb, jsGet_not_contains b k hb, jsGet_not_contains a k ha]

theorem jsGet_jsSet (o : JsObj) (k : String) (v : JsValue) (k' : String) :
    jsGet (jsSet o k v) k' = if k = k' then v else jsGet o k' := by
  induction o with
  | nil => simp [jsSet, jsGet]
  | cons kv rest ih =>
    obtain ⟨k0, v0⟩ := kv
    rw [jsSet]
    by_cases h0 : k0 = k
    · subst h0
      by_cases h' : k0 = k'
      · subst h'
        simp [jsGet]
      · simp [jsGet, h']
    · rw [if_neg h0]
      by_cases h' : k0 = k'
      · subst h'
        rw [jsGet, if_pos rfl, jsGet, if_pos rfl, if_neg (fun h => h0 h.symm)]
      · rw [jsGet, if_neg h', ih, jsGet, if_neg h']

theorem mem_keys_jsSet (o : JsObj) (k : String) (v : JsValue) (k' : String) :
    k' ∈ jsKeys (jsSet o k v) ↔ k' = k ∨ k' ∈ jsKeys o := by
  induction o with
  | nil => simp [jsSet, jsKeys]
  | cons kv rest ih =>
    obtain ⟨k0, v0⟩ := kv
    rw [jsSet]
    by_cases h0 : k0 = k
    · subst h0
      rw [if_pos rfl]
      simp only [jsKeys_cons, List.mem_cons]
      tauto
    · rw [if_neg h0]
      simp only [jsKeys_cons, List.mem_cons, ih]
      tauto

theorem jsGet_whitelist_fold (configProps : List String) (props : JsObj) :
    ∀ (ks : List String) (acc : JsObj) (k : String),
    jsGet (ks.foldl
      (fun acc key =>
        if configProps.contains key then jsSet acc key (jsGet props key) else acc)
      acc) k =
    if k ∈ ks ∧ configProps.contains k then jsGet props k else jsGet acc k := by
  intro ks
  induction ks with
  | nil => simp
  | cons key rest ih =>
    intro acc k
    rw [List.foldl_cons, ih]
    by_cases hwl : configProps.contains key = true
    · rw [if_pos hwl, jsGet_jsSet]
      by_cases hrest : k ∈ rest ∧ configProps.contains k = true
      · rw [if_pos hrest, if_pos ⟨List.mem_cons_of_mem _ hrest.1, hrest.2⟩]
      · rw [if_neg hrest]
        by_cases hkey : key = k
        · subst hkey
          rw [if_pos rfl, if_pos ⟨List.mem_cons_self _ _, hwl⟩]
        · rw [if_neg hkey, if_neg (by
            intro hc
            rcases hc with ⟨hm, hwk⟩
            rcases List.mem_cons.mp hm with h | h
            · exact hkey h.symm
            · exact hrest ⟨h, hwk⟩)]
    · rw [if_neg hwl]
      by_cases hrest : k ∈ rest ∧ configProps.contains k = true
      · rw [if_pos hrest, if_pos ⟨List.mem_cons_of_mem _ hrest.1, hrest.2⟩]
      · rw [if_neg hrest, if_neg (by
          intro hc
          rcases hc with ⟨hm, hwk⟩
          rcases List.mem_cons.mp hm with h | h
          · subst h
            exact hwl hwk
          · exact hrest ⟨h, hwk⟩)]

theorem mem_keys_whitelist_fold (configProps : List String) (props : JsObj) :
    ∀ (ks : List String) (acc : JsObj) (k : String),
    k ∈ jsKeys (ks.foldl
      (fun acc key =>
        if configProps.contains key then jsSet acc key (jsGet props key) else acc)
      acc) ↔
    (k ∈ ks ∧ configProps.contains k = true) ∨ k ∈ jsKeys acc := by
  intro ks
  induction ks with
  | nil => simp
  | cons key rest ih =>
    intro acc k
    rw [List.foldl_cons, ih]
    by_cases hwl : configProps.contains key = true
    · rw [if_pos hwl]
      rw [mem_keys_jsSet]
      constructor
      · rintro (⟨hm, hwk⟩ | hk | hacc)
        · exact Or.inl ⟨List.mem_cons_of_mem _ hm, hwk⟩
        · subst hk
          exact Or.inl ⟨List.mem_cons_self _ _, hwl⟩
        · exact Or.inr hacc
      · rintro (⟨hm, hwk⟩ | hacc)
        · rcases List.mem_cons.mp hm with h | h
          · subst h
            exact Or.inr (Or.inl rfl)
          · exact Or.inl ⟨h, hwk⟩
        · exact Or.inr (Or.inr hacc)
    · rw [if_neg hwl]
      constructor
      · rintro (⟨hm, hwk⟩ | hacc)
        · exact Or.inl ⟨List.mem_cons_of_mem _ hm, hwk⟩
        · exact Or.inr hacc
      · rintro (⟨hm, hwk⟩ | hacc)
        · rcases List.mem_cons.mp hm with h | h
          · subst h
            exact absurd hwk hwl
          · exact Or.inl ⟨h, hwk⟩
        · exact Or.inr hacc

theorem mem_keys_spread2 (a b : JsObj) (k : String) :
    k ∈ jsKeys (spread2 a b) ↔ k ∈ jsKeys a ∨ k ∈ jsKeys b := by
  unfold spread2
  rw [jsKeys]
  rw [List.map_append, List.mem_append]
  constructor
  · rintro (h | h)
    · left
      have := jsKeys_map_value a
        (fun kv => if (jsKeys b).contains kv.1 then jsGet b kv.1 else kv.2)
      rw [show List.map Prod.fst (a.map fun kv =>
        (kv.1, if (jsKeys b).contains kv.1 then jsGet b kv.1 else kv.2)) =
        jsKeys (a.map fun kv =>
        (kv.1, if (jsKeys b).contains kv.1 then jsGet b kv.1 else kv.2)) from rfl,
        this] at h
      exact h
    · right
      rcases List.mem_map.mp h with ⟨kv, hkv, hfst⟩
      have := List.mem_of_mem_filter hkv
      subst hfst
      exact List.mem_map.mpr ⟨kv, this, rfl⟩
  · intro h
    by_cases ha : k ∈ jsKeys a
    · left
      have := jsKeys_map_value a
        (fun kv => if (jsKeys b).contains kv.1 then jsGet b kv.1 else kv.2)
      rw [show List.map Prod.fst (a.map fun kv =>
        (kv.1, if (jsKeys b).contains kv.1 then jsGet b kv.1 else kv.2)) =
        jsKeys (a.map fun kv =>
        (kv.1, if (jsKeys b).contains kv.1 then jsGet b kv.1 else kv.2)) from rfl,
        this]
      exact ha
    · rcases h with h | h
      · exact absurd h ha
      · right
        rcases List.mem_map.mp h with ⟨kv, hkv, hfst⟩
        subst hfst
        refine List.mem_map.mpr ⟨kv, List.mem_filter.mpr ⟨hkv, ?_⟩, rfl⟩
        rw [contains_eq_decide]
        simpa using ha

theorem jsGet_whitelistedConfig (configProps : List String) (props : JsObj)
    (k : String) :
    jsGet (whitelistedConfig configProps props) k =
    if k ∈ jsKeys props ∧ configProps.contains k then jsGet props k
    else JsValue.vundef := by
  unfold whitelistedConfig
  rw [jsGet_whitelist_fold]
  by_cases h : k ∈ jsKeys props ∧ configProps.contains k = true
  · rw [if_pos h, if_pos h]
  · rw [if_neg h, if_neg h, jsGet]

theorem mem_keys_whitelistedConfig (configProps : List String) (props : JsObj)
    (k : String) :
    k ∈ jsKeys (whitelistedConfig configProps props) ↔
    k ∈ jsKeys props ∧ configProps.contains k = true := by
  unfold whitelistedConfig
  rw [mem_keys_whitelist_fold]
  simp [jsKeys]

/-- Merge-order law of the effective configuration: the marker wins,
then individually whitelisted properties, then the `config` base
object, then the process-wide defaults. -/
theorem jsGet_setupConfig (jwDefaults : JsObj) (configProps : List String)
    (props : JsObj) (k : String) :
    jsGet (setupConfig jwDefaults configProps props) k =
    if k = "isReactComponent" then JsValue.vbool true
    else if k ∈ jsKeys props ∧ configProps.contains k then jsGet props k
    else if k ∈ jsKeys (spreadValue (jsGet props "config")) then
      jsGet (spreadValue (jsGet props "config")) k
    else jsGet jwDefaults k := by
  unfold setupConfig generateConfig
  rw [jsGet_spread2]
  by_cases hmark : k = "isReactComponent"
  · subst hmark
    rw [if_pos (by
      rw [mem_keys_spread2]
      right
      simp [jsKeys]), if_pos rfl]
    rw [jsGet_spread2, if_pos (by simp [jsKeys]), jsGet]
    simp
  · rw [if_neg hmark]
    by_cases hwl : k ∈ jsKeys props ∧ configProps.contains k = true
    · rw [if_pos hwl]
      rw [if_pos (by
        rw [mem_keys_spread2]
        left
        rw [mem_keys_spread2]
        right
        exact (mem_keys_whitelistedConfig _ _ _).mpr hwl)]
      rw [jsGet_spread2, if_neg (by simp [jsKeys, hmark])]
      rw [jsGet_spread2,
        if_pos ((mem_keys_whitelistedConfig _ _ _).mpr hwl),
        jsGet_whitelistedConfig, if_pos hwl]
    · rw [if_neg hwl]
      by_cases hbase : k ∈ jsKeys (spreadValue (jsGet props "config"))
      · rw [if_pos hbase]
        rw [if_pos (by
          rw [mem_keys_spread2]
          left
          rw [mem_keys_spread2]
          left
          exact hbase)]
        rw [jsGet_spread2, if_neg (by simp [jsKeys, hmark])]
        rw [jsGet_spread2,
          if_neg (fun hc => hwl ((mem_keys_whitelistedConfig _ _ _).mp hc))]
      · rw [if_neg hbase]
        rw [if_neg (by
          rw [mem_keys_spread2, mem_keys_spread2]
          push_neg
          refine ⟨⟨hbase, fun hc => hwl ((mem_keys_whitelistedConfig _ _ _).mp hc)⟩, ?_⟩
          simp [jsKeys, hmark])]

/-- C5: the effective configuration passed to `setup` is the merge of
process-wide defaults, the `config` property's value, the whitelisted
individual properties and the marker `isReactComponent: true`, with
later layers overriding earlier ones; unsupported names are dropped
(every result key either is the marker, or is a whitelisted property
key, or comes from the `config` base object or the defaults).  On the
spec's example — defaults `{width:400,height:300}`, base-config
`{height:480}`, properties `{width:720,unsupported:3}`, whitelist
containing width and height — the result is exactly
`{width:720,height:480,isReactComponent:true}`. -/
theorem setupConfig_spec :
    (∀ (jwDefaults : JsObj) (configProps : List String) (props : JsObj)
        (k : String),
      jsGet (setupConfig jwDefaults configProps props) k =
        if k = "isReactComponent" then JsValue.vbool true
        else if k ∈ jsKeys props ∧ configProps.contains k then jsGet props k
        else if k ∈ jsKeys (spreadValue (jsGet props "config")) then
          jsGet (spreadValue (jsGet props "config")) k
        else jsGet jwDefaults k) ∧
    (∀ (jwDefaults : JsObj) (configProps : List String) (props : JsObj)
        (k : String),
      k ∈ jsKeys (setupConfig jwDefaults configProps props) →
        k = "isReactComponent" ∨ (k ∈ jsKeys props ∧ configProps.contains k = true) ∨
        k ∈ jsKeys (spreadValue (jsGet props "config")) ∨ k ∈ jsKeys jwDefaults) ∧
    setupConfig [("width", JsValue.vnum 400), ("height", JsValue.vnum 300)]
      ["width", "height"]
      [("width", JsValue.vnum 720), ("unsupported", JsValue.vnum 3),
       ("config", JsValue.vobj 0 [("height", JsValue.vnum 480)])] =
      [("width", JsValue.vnum 720), ("height", JsValue.vnum 480),
       ("isReactComponent", JsValue.vbool true)] := by
  refine ⟨jsGet_setupConfig, ?_, rfl⟩
  intro jwDefaults configProps props k hk
  unfold setupConfig generateConfig at hk
  rw [mem_keys_spread2] at hk
  rcases hk with hk | hk
  · right
    right
    right
    exact hk
  · rw [mem_keys_spread2] at hk
    rcases hk with hk | hk
    · rw [mem_keys_spread2] at hk
      rcases hk with hk | hk
      · right
        right
        left
        exact hk
      · right
        left
        exact (mem_keys_whitelistedConfig _ _ _).mp hk
    · left
      simpa [jsKeys] using hk

/-- Witness for C5: on the spec's example the result key `width` is
accounted for by the whitelisted-property layer. -/
theorem setupConfig_witness :
    "width" = "isReactComponent" ∨
    ("width" ∈ jsKeys [("width", JsValue.vnum 720),
        ("unsupported", JsValue.vnum 3),
        ("config", JsValue.vobj 0 [("height", JsValue.vnum 480)])] ∧
      (["width", "height"] : List String).contains "width" = true) ∨
    "width" ∈ jsKeys (spreadValue (jsGet
      [("width", JsValue.vnum 720), ("unsupported", JsValue.vnum 3),
       ("config", JsValue.vobj 0 [("height", JsValue.vnum 480)])] "config")) ∨
    "width" ∈ jsKeys [("width", JsValue.vnum 400),
      ("height", JsValue.vnum 300)] :=
  setupConfig_spec.2.1 [("width", JsValue.vnum 400),
      ("height", JsValue.vnum 300)]
    ["width", "height"]
    [("width", JsValue.vnum 720), ("unsupported", JsValue.vnum 3),
     ("config", JsValue.vobj 0 [("height", JsValue.vnum 480)])]
    "width" (by decide)

/-- C9: classification is a pure string computation: `getHandlerName`
strips the recognized prefix and lower-cases the first remaining
character, so `onPlay` extracts the fire-every event `play`,
`oncePlaylistComplete` extracts the fire-once event `playlistComplete`,
`onAll` extracts the reserved catch-all token, and a non-matching name
like `playlist` extracts the empty string under both patterns. -/
theorem getHandlerName_classify :
    getHandlerName "onPlay" HandlerPattern.onPat = "play" ∧
    getHandlerName "oncePlaylistComplete" HandlerPattern.oncePat =
      "playlistComplete" ∧
    getHandlerName "onAll" HandlerPattern.onPat = ALL ∧
    getHandlerName "playlist" HandlerPattern.onPat = "" ∧
    getHandlerName "playlist" HandlerPattern.oncePat = "" := by
  refine ⟨?_, ?_, ?_, ?_, ?_⟩ <;> decide

theorem anyIdx_eq_true_iff (f : Nat → String → Bool) :
    ∀ (l : List String) (i : Nat),
    anyIdx f i l = true ↔
      ∃ j, ∃ h : j < l.length, f (i + j) (l.get ⟨j, h⟩) = true := by
  intro l
  induction l with
  | nil =>
    intro i
    simp [anyIdx]
  | cons s ss ih =>
    intro i
    rw [anyIdx, Bool.or_eq_true, ih]
    constructor
    · rintro (h | ⟨j, hj, hf⟩)
      · exact ⟨0, by simp, by simpa using h⟩
      · refine ⟨j + 1, by simpa using Nat.succ_lt_succ hj, ?_⟩
        have harith : i + (j + 1) = (i + 1) + j := by omega
        rw [harith]
        exact hf
    · rintro ⟨j, hj, hf⟩
      cases j with
      | zero =>
        left
        simpa using hf
      | succ j =>
        right
        refine ⟨j, Nat.lt_of_succ_lt_succ (by simpa using hj), ?_⟩
        have harith : (i + 1) + j = i + (j + 1) := by omega
        rw [harith]
        exact hf

theorem getD_of_lt (l : List String) (j : Nat) (h : j < l.length) :
    l.getD j "" = l.get ⟨j, h⟩ := by
  rw [List.getD_eq_get?, List.get?_eq_get h]
  rfl

/-- C1: `didOnEventsChange` returns true exactly when the sorted
fire-every name lists differ in length, or differ in name at some
sorted position, or the values bound to the common name at some sorted
position differ by reference identity; on the spec's examples it is
false for `{onPlay:f}` vs `{onPlay:f}` (same reference), true for
`{onPlay:f}` vs `{onPlay:g}`, true when an on-event property is added
or removed, and false when only non-event properties change. -/
theorem didOnEventsChange_spec :
    (∀ currProps nextProps,
      didOnEventsChange currProps nextProps = true ↔
        specEventChange currProps nextProps) ∧
    didOnEventsChange [("onPlay", JsValue.vfun 1)]
      [("onPlay", JsValue.vfun 1)] = false ∧
    didOnEventsChange [("onPlay", JsValue.vfun 1)]
      [("onPlay", JsValue.vfun 2)] = true ∧
    didOnEventsChange [("onPlay", JsValue.vfun 1)] [] = true ∧
    didOnEventsChange [] [("onPlay", JsValue.vfun 1)] = true ∧
    didOnEventsChange
      [("onPlay", JsValue.vfun 1), ("unsupported", JsValue.vnum 1)]
      [("onPlay", JsValue.vfun 1), ("unsupported", JsValue.vnum 2)] = false := by
  refine ⟨?_, by decide, by decide, by decide, by decide, by decide⟩
  intro currProps nextProps
  show (if (sortedOnEvents nextProps).length ≠ (sortedOnEvents currProps).length
      then true
      else anyIdx _ 0 (sortedOnEvents nextProps)) = true ↔ _
  unfold specEventChange
  set c := sortedOnEvents currProps with hc
  set n := sortedOnEvents nextProps with hn
  by_cases hlen : n.length = c.length
  · rw [if_neg (by simp [hlen]), anyIdx_eq_true_iff]
    constructor
    · rintro ⟨j, hj, hf⟩
      rw [Bool.or_eq_true, decide_eq_true_eq, Bool.not_eq_true'] at hf
      rcases hf with hne | hfalse
      · refine Or.inr (Or.inl ⟨j, hj, ?_⟩)
        rw [getD_of_lt n j hj]
        simpa using hne
      · by_cases hname : c.getD j "" = n.getD j ""
        · refine Or.inr (Or.inr ⟨j, hj, hname, ?_⟩)
          rw [getD_of_lt n j hj]
          simpa using hfalse
        · exact Or.inr (Or.inl ⟨j, hj, hname⟩)
    · rintro (hne | ⟨i, hi, hname⟩ | ⟨i, hi, _, hfalse⟩)
      · exact absurd hlen.symm hne
      · refine ⟨i, hi, ?_⟩
        rw [Bool.or_eq_true, decide_eq_true_eq]
        left
        rw [Nat.zero_add]
        rw [getD_of_lt n i hi] at hname
        exact hname
      · refine ⟨i, hi, ?_⟩
        rw [Bool.or_eq_true, Bool.not_eq_true']
        right
        rw [getD_of_lt n i hi] at hfalse
        exact hfalse
  · rw [if_pos (by simp [hlen])]
    simp only [true_iff]
    exact Or.inl (fun h => hlen h.symm)

theorem jsStrictEq_self (v : JsValue) : jsStrictEq v v = true := by
  cases v <;> simp [jsStrictEq]

/-- Whether the property named `prop` is a fire-every handler for event
`name` bound to the function with reference id `fid`. -/
def firesEveryFor (props : JsObj) (name : String) (fid : Nat)
    (prop : String) : Bool :=
  (getHandlerName prop HandlerPattern.onPat != "") &&
  (getHandlerName prop HandlerPattern.onPat == name) &&
  isFunRef (jsGet props prop) fid

/-- Whether the property named `prop` is a catch-all handler bound to
the function with reference id `fid`. -/
def firesAllFor (props : JsObj) (fid : Nat) (prop : String) : Bool :=
  (getHandlerName prop HandlerPattern.onPat == ALL) &&
  isFunRef (jsGet props prop) fid

theorem countP_every_callsForProp (props : JsObj) (prop name : String)
    (p : JsValue) (fid : Nat) :
    (callsForProp props prop name p).countP (isEveryCallOf fid) =
    if firesEveryFor props name fid prop then 1 else 0 := by
  unfold callsForProp firesEveryFor
  rw [List.countP_append]
  have hseg2 : (if getHandlerName prop HandlerPattern.onPat = ALL then
      match jsGet props prop with
      | JsValue.vfun f => [HandlerCall.withName f name p]
      | _ => []
    else []).countP (isEveryCallOf fid) = 0 := by
    split
    · cases jsGet props prop <;> simp [isEveryCallOf]
    · simp
  rw [hseg2, Nat.add_zero]
  by_cases h1 : getHandlerName prop HandlerPattern.onPat ≠ "" ∧
      getHandlerName prop HandlerPattern.onPat = name
  · rw [if_pos h1]
    have hb1 : (getHandlerName prop HandlerPattern.onPat != "") = true := by
      simp [bne_iff_ne, h1.1]
    have hb2 : (getHandlerName prop HandlerPattern.onPat == name) = true := by
      simp [h1.2]
    cases hv : jsGet props prop <;>
      simp [hb1, hb2, isEveryCallOf, isFunRef, List.countP_cons, List.countP_nil,
        beq_iff_eq]
  · rw [if_neg h1, if_neg (by
      intro hc
      simp only [Bool.and_eq_true, bne_iff_ne, beq_iff_eq] at hc
      exact h1 hc.1)]
    simp

theorem countP_all_callsForProp (props : JsObj) (prop name : String)
    (p : JsValue) (fid : Nat) :
    (callsForProp props prop name p).countP (isAllCallOf fid) =
    if firesAllFor props fid prop then 1 else 0 := by
  unfold callsForProp firesAllFor
  rw [List.countP_append]
  have hseg1 : (if getHandlerName prop HandlerPattern.onPat ≠ "" ∧
        getHandlerName prop HandlerPattern.onPat = name then
      match jsGet props prop with
      | JsValue.vfun f => [HandlerCall.payloadOnly f p]
      | _ => []
    else []).countP (isAllCallOf fid) = 0 := by
    split
    · cases jsGet props prop <;> simp [isAllCallOf]
    · simp
  rw [hseg1, Nat.zero_add]
  by_cases h2 : getHandlerName prop HandlerPattern.onPat = ALL
  · rw [if_pos h2]
    have hb2 : (getHandlerName prop HandlerPattern.onPat == ALL) = true := by
      simp [h2]
    cases hv : jsGet props prop <;>
      simp [hb2, isAllCallOf, isFunRef, List.countP_cons, List.countP_nil,
        beq_iff_eq]
  · rw [if_neg h2, if_neg (by
      intro hc
      simp only [Bool.and_eq_true, beq_iff_eq] at hc
      exact h2 hc.1)]
    simp

theorem countP_flatMap_calls (props : JsObj) (name : String) (p : JsValue)
    (q : HandlerCall → Bool) (keyPred : String → Bool)
    (hseg : ∀ prop, (callsForProp props prop name p).countP q =
      if keyPred prop then 1 else 0) :
    ∀ ks : List String,
    ((ks.flatMap fun prop => callsForProp props prop name p).countP q) =
    ks.countP keyPred := by
  intro ks
  induction ks with
  | nil => simp
  | cons prop rest ih =>
    rw [List.flatMap_cons, List.countP_append, ih, List.countP_cons, hseg]
    omega

theorem all_calls_match (props : JsObj) (name : String) (p : JsValue) :
    ∀ ks : List String,
    ((ks.flatMap fun prop => callsForProp props prop name p).all fun c =>
      match c with
      | HandlerCall.payloadOnly _ q => jsStrictEq q p
      | HandlerCall.withName _ n q => (n == name) && jsStrictEq q p) = true := by
  intro ks
  induction ks with
  | nil => simp
  | cons prop rest ih =>
    rw [List.flatMap_cons, List.all_append, Bool.and_eq_true]
    refine ⟨?_, ih⟩
    unfold callsForProp
    rw [List.all_append, Bool.and_eq_true]
    constructor
    · split
      · cases jsGet props prop <;> simp [jsStrictEq_self]
      · simp
    · split
      · cases jsGet props prop <;> simp [jsStrictEq_self]
      · simp

/-- C3: the dispatch function built from a bag calls exactly those
fire-every properties whose extracted event name equals the dispatched
name and whose value is callable, passing the payload, and exactly
those catch-all properties whose value is callable, passing the name
and the payload; every recorded call carries the dispatched payload
(and, for catch-all calls, the dispatched name).  For
`{onPlay:spy1, onAll:spy2}`, dispatching `('play', {t:1})` calls
`spy1` once with the payload and `spy2` once with the name and the
payload, and dispatching `('pause', …)` calls `spy2` but not `spy1`. -/
theorem createOnEventHandler_spec :
    (∀ props name p fid,
      (createOnEventHandler props name p).countP (isEveryCallOf fid) =
        (jsKeys props).countP (firesEveryFor props name fid)) ∧
    (∀ props name p fid,
      (createOnEventHandler props name p).countP (isAllCallOf fid) =
        (jsKeys props).countP (firesAllFor props fid)) ∧
    (∀ props name p,
      ((createOnEventHandler props name p).all fun c =>
        match c with
        | HandlerCall.payloadOnly _ q => jsStrictEq q p
        | HandlerCall.withName _ n q => (n == name) && jsStrictEq q p) = true) ∧
    createOnEventHandler [("onPlay", JsValue.vfun 1), ("onAll", JsValue.vfun 2)]
      "play" (JsValue.vnum 1) =
      [HandlerCall.payloadOnly 1 (JsValue.vnum 1),
       HandlerCall.withName 2 "play" (JsValue.vnum 1)] ∧
    createOnEventHandler [("onPlay", JsValue.vfun 1), ("onAll", JsValue.vfun 2)]
      "pause" JsValue.vundef =
      [HandlerCall.withName 2 "pause" JsValue.vundef] := by
  refine ⟨?_, ?_, ?_, by rfl, by rfl⟩
  · intro props name p fid
    exact countP_flatMap_calls props name p (isEveryCallOf fid)
      (firesEveryFor props name fid)
      (fun prop => countP_every_callsForProp props prop name p fid) (jsKeys props)
  · intro props name p fid
    exact countP_flatMap_calls props name p (isAllCallOf fid)
      (firesAllFor props fid)
      (fun prop => countP_all_callsForProp props prop name p fid) (jsKeys props)
  · intro props name p
    exact all_calls_match props name p (jsKeys props)

/-- C10: a bag whose `onAll` property is callable has its catch-all
handler invoked twice by a single dispatch of the event named `all`:
once through the fire-every branch with only the payload, and once
through the catch-all branch with the name and the payload; on the
singleton bag `{onAll:f}` the trace is exactly those two calls. -/
theorem onAll_double_dispatch :
    (∀ props p fid,
      jsGet props "onAll" = JsValue.vfun fid →
      "onAll" ∈ jsKeys props →
      HandlerCall.payloadOnly fid p ∈ createOnEventHandler props ALL p ∧
      HandlerCall.withName fid ALL p ∈ createOnEventHandler props ALL p) ∧
    createOnEventHandler [("onAll", JsValue.vfun 7)] ALL (JsValue.vnum 5) =
      [HandlerCall.payloadOnly 7 (JsValue.vnum 5),
       HandlerCall.withName 7 ALL (JsValue.vnum 5)] := by
  refine ⟨?_, by rfl⟩
  intro props p fid hget hmem
  have hseg : callsForProp props "onAll" ALL p =
      [HandlerCall.payloadOnly fid p, HandlerCall.withName fid ALL p] := by
    unfold callsForProp
    dsimp only
    have hname : getHandlerName "onAll" HandlerPattern.onPat = ALL := by decide
    rw [hname, if_pos ⟨by decide, rfl⟩, if_pos rfl, hget]
    rfl
  constructor
  · exact List.mem_flatMap.mpr ⟨"onAll", hmem, by
      rw [hseg]
      exact List.mem_cons_self _ _⟩
  · exact List.mem_flatMap.mpr ⟨"onAll", hmem, by
      rw [hseg]
      exact List.mem_cons_of_mem _ (List.mem_cons_self _ _)⟩

/-- Witness for C10 at the concrete bag `{onAll: fun7}` and payload `5`. -/
theorem onAll_double_dispatch_witness :
    HandlerCall.payloadOnly 7 (JsValue.vnum 5) ∈
      createOnEventHandler [("onAll", JsValue.vfun 7)] ALL (JsValue.vnum 5) ∧
    HandlerCall.withName 7 ALL (JsValue.vnum 5) ∈
      createOnEventHandler [("onAll", JsValue.vfun 7)] ALL (JsValue.vnum 5) :=
  onAll_double_dispatch.1 [("onAll", JsValue.vfun 7)] (JsValue.vnum 5) 7
    (by simp [jsGet]) (by simp [jsKeys])

theorem onceOps_only_once (props : JsObj) (st : Inst) :
    ∀ c ∈ (jsKeys props).flatMap fun prop =>
      if getHandlerName prop HandlerPattern.oncePat ≠ "" ∧ st.player.isSome then
        match jsGet props prop with
        | JsValue.vfun fid =>
          [PlayerCall.onceCall (getHandlerName prop HandlerPattern.oncePat) fid]
        | _ => []
      else [],
    ∃ ev f, c = PlayerCall.onceCall ev f := by
  intro c hc
  rcases List.mem_flatMap.mp hc with ⟨prop, _, hmem⟩
  revert hmem
  split
  · cases jsGet props prop <;> intro hmem <;> simp at hmem
    exact ⟨_, _, hmem⟩
  · intro hmem
    simp at hmem

theorem aggStep_skips (l : List PlayerCall)
    (h : ∀ c ∈ l, ∃ ev f, c = PlayerCall.onceCall ev f) :
    (∀ A, l.foldl aggStep A = A) ∧ attachCount l = 0 ∧ detachCount l = 0 := by
  induction l with
  | nil => exact ⟨fun A => rfl, rfl, rfl⟩
  | cons c rest ih =>
    rcases h c (List.mem_cons_self _ _) with ⟨ev, f, hc⟩
    subst hc
    have := ih (fun c hc => h c (List.mem_cons_of_mem _ hc))
    refine ⟨fun A => ?_, ?_, ?_⟩
    · rw [List.foldl_cons]
      exact this.1 A
    · unfold attachCount
      rw [List.countP_cons]
      simpa [attachCount] using this.2.1
    · unfold detachCount
      rw [List.countP_cons]
      simpa [detachCount] using this.2.2

theorem attachCount_append (a b : List PlayerCall) :
    attachCount (a ++ b) = attachCount a + attachCount b :=
  List.countP_append _ _ _

theorem detachCount_append (a b : List PlayerCall) :
    detachCount (a ++ b) = detachCount a + detachCount b :=
  List.countP_append _ _ _

theorem runMounted_preserves :
    ∀ (events : List MountedEvent) (st : Inst) (A : List Nat) (h : Nat),
    st.onHandler = some h →
    (st.player.isSome = true → A = [h]) →
    A.length = 1 →
    ((runMounted st events).2.foldl aggStep A).length = 1 ∧
    attachCount (runMounted st events).2 = detachCount (runMounted st events).2 := by
  intro events
  induction events with
  | nil =>
    intro st A h _ _ hA
    exact ⟨hA, rfl⟩
  | cons e rest ih =>
    intro st A h hH hP hA
    obtain ⟨pl, oh⟩ := st
    have hH' : oh = some h := hH
    subst hH'
    cases e with
    | refresh f =>
      rw [runMounted]
      cases pl with
      | some p =>
        have hops : (updateOnEventListener ⟨some p, some h⟩ f) =
            (⟨some p, some f⟩,
             [PlayerCall.offCall ALL h, PlayerCall.onCall ALL f]) := rfl
        have hAeq : A = [h] := hP rfl
        subst hAeq
        have hfold : ([PlayerCall.offCall ALL h,
            PlayerCall.onCall ALL f].foldl aggStep [h]) = [f] := by
          simp [aggStep]
        have hrec := ih ⟨some p, some f⟩ [f] f rfl (fun _ => rfl) rfl
        rw [hops]
        dsimp only
        constructor
        · rw [List.foldl_append, hfold]
          exact hrec.1
        · rw [attachCount_append, detachCount_append]
          have h1 : attachCount [PlayerCall.offCall ALL h,
              PlayerCall.onCall ALL f] = 1 := by
            simp [attachCount, List.countP_cons]
          have h2 : detachCount [PlayerCall.offCall ALL h,
              PlayerCall.onCall ALL f] = 1 := by
            simp [detachCount, List.countP_cons]
          have h3 := hrec.2
          omega
      | none =>
        have hops : (updateOnEventListener ⟨none, some h⟩ f) =
            (⟨none, some f⟩, []) := rfl
        have hrec := ih ⟨none, some f⟩ A f rfl
          (fun hc => absurd hc (by simp)) hA
        rw [hops]
        dsimp only
        simpa using hrec
    | externalDestroy =>
      rw [runMounted]
      exact ih ⟨none, some h⟩ A h rfl
        (fun hc => absurd hc (by simp)) hA

/-- C2: the aggregate-channel subscription is single-occupancy.  When
the stored dispatch function and the player handle are both non-null,
`updateOnEventListener` emits exactly a detach of the old function
followed by an attach of the new one; a null player handle makes the
whole call a no-op on the player, and a null stored function skips only
the detach.  Across any mounted lifetime — the initial
`createEventListeners` followed by arbitrary refreshes and external
destructions — the number of attach calls on the aggregate channel is
one more than the number of detach calls, and replaying the trace
leaves exactly one dispatch function attached. -/
theorem updateOnEventListener_spec :
    (∀ p h f, updateOnEventListener ⟨some p, some h⟩ f =
      (⟨some p, some f⟩,
       [PlayerCall.offCall ALL h, PlayerCall.onCall ALL f])) ∧
    (∀ h f, updateOnEventListener ⟨none, h⟩ f = (⟨none, some f⟩, [])) ∧
    (∀ p f, updateOnEventListener ⟨some p, none⟩ f =
      (⟨some p, some f⟩, [PlayerCall.onCall ALL f])) ∧
    (∀ props p h0 events,
      attachCount (mountedTrace props p h0 events) =
        detachCount (mountedTrace props p h0 events) + 1 ∧
      (aggAttached (mountedTrace props p h0 events)).length = 1) := by
  refine ⟨fun p h f => rfl, fun h f => by cases h <;> rfl, fun p f => rfl, ?_⟩
  intro props p h0 events
  unfold mountedTrace
  have hr : createEventListeners props { player := some p, onHandler := none } h0 =
      (⟨some p, some h0⟩,
       ((jsKeys props).flatMap fun prop =>
         if getHandlerName prop HandlerPattern.oncePat ≠ "" ∧
             (Option.some p).isSome then
           match jsGet props prop with
           | JsValue.vfun fid =>
             [PlayerCall.onceCall (getHandlerName prop HandlerPattern.oncePat) fid]
           | _ => []
         else []) ++ [PlayerCall.onCall ALL h0]) := rfl
  rw [hr]
  dsimp only
  set onceOps := (jsKeys props).flatMap fun prop =>
    if getHandlerName prop HandlerPattern.oncePat ≠ "" ∧
        (Option.some p).isSome then
      match jsGet props prop with
      | JsValue.vfun fid =>
        [PlayerCall.onceCall (getHandlerName prop HandlerPattern.oncePat) fid]
      | _ => []
    else [] with honceOps
  have hskip := aggStep_skips onceOps
    (onceOps_only_once props ⟨some p, none⟩)
  have hrun := runMounted_preserves events ⟨some p, some h0⟩ [h0] h0 rfl
    (fun _ => rfl) rfl
  constructor
  · rw [attachCount_append, attachCount_append, detachCount_append,
      detachCount_append]
    have ha := hskip.2.1
    have hd := hskip.2.2
    have hone : attachCount [PlayerCall.onCall ALL h0] = 1 := by
      simp [attachCount, List.countP_cons]
    have hnone : detachCount [PlayerCall.onCall ALL h0] = 0 := by
      simp [detachCount, List.countP_cons]
    have hrd := hrun.2
    omega
  · unfold aggAttached
    rw [List.foldl_append, List.foldl_append, hskip.1 [], List.foldl_cons,
      List.foldl_nil]
    have : aggStep [] (PlayerCall.onCall ALL h0) = [h0] := by
      simp [aggStep]
    rw [this]
    exact hrun.1

/-- C4: `shouldComponentUpdate` returns false and performs no
subscription change when the player handle is null; when the handle is
non-null and the fire-every properties changed it performs exactly the
aggregate-listener refresh and returns false; otherwise it returns true
without touching the subscription. -/
theorem shouldComponentUpdate_spec :
    (∀ currProps nextProps oh f,
      shouldComponentUpdate currProps nextProps ⟨none, oh⟩ f =
        (false, ⟨none, oh⟩, [])) ∧
    (∀ currProps nextProps p oh f,
      didOnEventsChange currProps nextProps = true →
      shouldComponentUpdate currProps nextProps ⟨some p, oh⟩ f =
        (false, (updateOnEventListener ⟨some p, oh⟩ f).1,
         (updateOnEventListener ⟨some p, oh⟩ f).2)) ∧
    (∀ currProps nextProps p oh f,
      didOnEventsChange currProps nextProps = false →
      shouldComponentUpdate currProps nextProps ⟨some p, oh⟩ f =
        (true, ⟨some p, oh⟩, [])) := by
  refine ⟨fun currProps nextProps oh f => rfl, ?_, ?_⟩
  · intro currProps nextProps p oh f h
    unfold shouldComponentUpdate
    rw [if_neg (by simp), if_pos h]
  · intro currProps nextProps p oh f h
    unfold shouldComponentUpdate
    rw [if_neg (by simp), if_neg (by simp [h])]

/-- Witness for C4: on concrete inputs, a changed on-event set causes a
refresh with decision false, and an unchanged one returns true. -/
theorem shouldComponentUpdate_witness :
    shouldComponentUpdate [] [("onPlay", JsValue.vfun 1)] ⟨some 0, some 2⟩ 3 =
      (false, (updateOnEventListener ⟨some 0, some 2⟩ 3).1,
       (updateOnEventListener ⟨some 0, some 2⟩ 3).2) ∧
    shouldComponentUpdate [] [] ⟨some 0, some 2⟩ 3 =
      (true, ⟨some 0, some 2⟩, []) :=
  ⟨shouldComponentUpdate_spec.2.1 [] [("onPlay", JsValue.vfun 1)] 0 (some 2) 3
      (by decide),
   shouldComponentUpdate_spec.2.2 [] [] 0 (some 2) 3 (by decide)⟩

/-- C6: on unmount the notification callback (when supplied) comes
first and receives the player handle as it stood — possibly null; then,
only for a non-null handle, the no-argument `off()` strictly precedes
`remove()`, after which the handle is cleared; a null handle produces
no `off` or `remove` call and does not fail. -/
theorem unmountCleanup_spec :
    (∀ st ident, (unmountCleanup true st ident).2.head? =
      some (PlayerCall.unmountCb st.player ident)) ∧
    (∀ p oh ident, unmountCleanup true ⟨some p, oh⟩ ident =
      (⟨none, oh⟩, [PlayerCall.unmountCb (some p) ident,
        PlayerCall.offAllCall, PlayerCall.removeCall])) ∧
    (∀ p oh ident, unmountCleanup false ⟨some p, oh⟩ ident =
      (⟨none, oh⟩, [PlayerCall.offAllCall, PlayerCall.removeCall])) ∧
    (∀ oh ident, unmountCleanup true ⟨none, oh⟩ ident =
      (⟨none, oh⟩, [PlayerCall.unmountCb none ident])) ∧
    (∀ oh ident, unmountCleanup false ⟨none, oh⟩ ident =
      (⟨none, oh⟩, [])) := by
  refine ⟨?_, fun p oh ident => rfl, fun p oh ident => rfl,
    fun oh ident => rfl, fun oh ident => rfl⟩
  intro st ident
  obtain ⟨pl, oh⟩ := st
  cases pl <;> rfl

/-- C8: the loader resolves immediately with no script injection when
the global runtime is present; otherwise, with a truthy source url, it
injects exactly one script, resolving on load success and rejecting
with the error event on failure; with neither it throws synchronously —
independently of any network outcome and with no script injected — an
error whose message names both the library prop and the library script. -/
theorem loadPlayer_spec :
    (∀ url net, loadPlayer true url net = (LoadOutcome.resolved, 0)) ∧
    (∀ s net, s ≠ "" → loadPlayer false (some s) net =
      (match net with
       | Except.ok _ => (LoadOutcome.resolved, 1)
       | Except.error e => (LoadOutcome.rejected e, 1))) ∧
    (∀ net, loadPlayer false none net =
      (LoadOutcome.thrown
        "jwplayer-react requires either a library prop, or a library script",
       0)) ∧
    (∀ net, loadPlayer false (some "") net =
      (LoadOutcome.thrown
        "jwplayer-react requires either a library prop, or a library script",
       0)) ∧
    ("jwplayer-react requires either a library prop, or a library script".data =
      "jwplayer-react requires either a ".data ++ "library prop".data ++
      ", or a ".data ++ "library script".data) := by
  refine ⟨fun url net => rfl, ?_, fun net => rfl, fun net => rfl, by decide⟩
  intro s net h
  unfold loadPlayer
  dsimp only
  rw [if_neg (by simp [h]), if_neg (by simp)]

/-- Witness for C8: a present url with a failing network rejects with
the error event after one script injection. -/
theorem loadPlayer_witness :
    loadPlayer false (some "https://cdn.example/jw.js")
      (Except.error "errorEvent") =
    (LoadOutcome.rejected "errorEvent", 1) :=
  loadPlayer_spec.2.1 "https://cdn.example/jw.js" (Except.error "errorEvent")
    (by decide)

/-- True of the subscription-attaching player calls `on` and `once`. -/
def isSubscribeCall : PlayerCall → Bool
  | PlayerCall.onCall _ _ => true
  | PlayerCall.onceCall _ _ => true
  | _ => false

theorem createEventListeners_ops_shape (props : JsObj) (st : Inst)
    (freshFid : Nat) :
    ∀ c ∈ (createEventListeners props st freshFid).2,
      (∃ ev f, c = PlayerCall.onceCall ev f) ∨
      c = PlayerCall.onCall ALL freshFid := by
  intro c hc
  unfold createEventListeners at hc
  dsimp only at hc
  rw [List.mem_append] at hc
  rcases hc with hc | hc
  · exact Or.inl (onceOps_only_once props st c hc)
  · right
    revert hc
    cases st.player with
    | some p =>
      intro hc
      simpa using hc
    | none =>
      intro hc
      simp at hc

/-- C7: when the loader rejects, `componentDidMount` aborts atomically —
the instance state is unchanged (a null player handle stays null), no
player call is made (no once-handlers, no aggregate attach) and the
mount-notification callback never fires; on a successful mount, every
subscription-attaching call happens strictly before the
mount-notification callback in the trace. -/
theorem componentDidMount_spec :
    (∀ e props st newPid freshFid ident,
      componentDidMount (Except.error e) props st newPid freshFid ident =
        (Except.error e, st, [])) ∧
    (∀ props st newPid freshFid ident i j c,
      (componentDidMount (Except.ok ()) props st newPid freshFid
          ident).2.2.get? i = some (PlayerCall.mountCb newPid ident) →
      (componentDidMount (Except.ok ()) props st newPid freshFid
          ident).2.2.get? j = some c →
      isSubscribeCall c = true →
      j < i) := by
  refine ⟨fun e props st newPid freshFid ident => rfl, ?_⟩
  intro props st newPid freshFid ident i j c hi hj hsub
  have htr : (componentDidMount (Except.ok ()) props st newPid freshFid
      ident).2.2 =
      PlayerCall.setupCall ::
      ((createEventListeners props { st with player := some newPid }
          freshFid).2 ++
       (if truthy (jsGet props "didMountCallback") = true then
          [PlayerCall.mountCb newPid ident] else [])) := rfl
  rw [htr] at hi hj
  set mid := (createEventListeners props { st with player := some newPid }
    freshFid).2 with hmid
  set cbOps := (if truthy (jsGet props "didMountCallback") = true then
    [PlayerCall.mountCb newPid ident] else []) with hcb
  cases i with
  | zero => simp at hi
  | succ iPred =>
    rw [List.get?_cons_succ] at hi
    have hige : mid.length ≤ iPred := by
      by_contra hlt
      push_neg at hlt
      rw [List.get?_append hlt] at hi
      have hmem := List.get?_mem hi
      rcases createEventListeners_ops_shape props
          { st with player := some newPid } freshFid _ hmem with ⟨ev, f, heq⟩ | heq
      · exact PlayerCall.noConfusion heq
      · exact PlayerCall.noConfusion heq
    cases j with
    | zero =>
      rw [List.get?_cons_zero] at hj
      have : c = PlayerCall.setupCall := by
        injection hj with h
        exact h.symm
      subst this
      exact absurd hsub (by simp [isSubscribeCall])
    | succ jPred =>
      rw [List.get?_cons_succ] at hj
      by_cases hjl : jPred < mid.length
      · omega
      · push_neg at hjl
        rw [List.get?_append_right hjl] at hj
        have hmem := List.get?_mem hj
        by_cases ht : truthy (jsGet props "didMountCallback") = true
        · rw [hcb] at hmem
          rw [if_pos ht] at hmem
          have : c = PlayerCall.mountCb newPid ident := by simpa using hmem
          subst this
          exact absurd hsub (by simp [isSubscribeCall])
        · rw [hcb] at hmem
          rw [if_neg ht] at hmem
          simp at hmem

/-- Witness for C7 at a concrete bag with a mount callback: the
aggregate attach at position 1 precedes the mount notification at
position 2. -/
theorem componentDidMount_witness :
    ((componentDidMount (Except.ok ())
        [("didMountCallback", JsValue.vfun 9)] ⟨none, none⟩ 3 4
        "jw").2.2.get? 2 = some (PlayerCall.mountCb 3 "jw")) ∧
    ((componentDidMount (Except.ok ())
        [("didMountCallback", JsValue.vfun 9)] ⟨none, none⟩ 3 4
        "jw").2.2.get? 1 = some (PlayerCall.onCall ALL 4)) ∧
    1 < 2 :=
  ⟨by decide, by decide,
   componentDidMount_spec.2 [("didMountCallback", JsValue.vfun 9)]
     ⟨none, none⟩ 3 4 "jw" 2 1 (PlayerCall.onCall ALL 4)
     (by decide) (by decide) (by decide)⟩

end JwplayerReact
